import Mathlib

/-!
Verification of the bounded refinement loop in `src/agent_graph.py`
(supervisor / researcher / executor nodes of the LangGraph demo).

The Python graph state is a `TypedDict` with `total=False`: every field may
be absent, and nodes read fields through `state.get(key, default)`.  We embed
the state as a structure of `Option`-typed fields, where `none` models an
absent key, and `Option.getD` models `state.get(key, default)`.

Nodes return partial dictionaries that the graph runtime merges into the
state; we embed those return values as a `StateUpdate` structure whose
fields are `none` when the node's returned dict does not mention the key.

External collaborators (the Groq LLM endpoint, the stdlib `json` codec, the
notepad file append, the `os.system` notepad launch) are modelled at their
interface boundary as oracle parameters, exactly as the code consumes them:
an LLM call either returns a response string or raises; `json.loads` either
returns a dict (viewed through the two `.get` lookups the code performs) or
raises; a file append either succeeds or raises.
-/

namespace AgentGraph

/-- JSON-representable values as stored in the persisted memory mapping
(`langgraph_memory.json`).  Only the shapes the program actually stores or
round-trips are needed: strings, lists of strings, integers, booleans and
`null` (Python `None`, stored for `last_query` when `user_input` is absent). -/
inductive JValue where
  | str (s : String)
  | strList (l : List String)
  | int (n : Int)
  | bool (b : Bool)
  | null
deriving Repr, DecidableEq

/-- The persisted memory mapping: a Python `dict` with string keys, embedded
as an insertion-ordered association list. -/
def Memory := List (String × JValue)
deriving Repr, DecidableEq

instance : Append Memory := ⟨fun a b => List.append a b⟩

/-- `m[k] = v` for an existing key keeps the key's position; a new key is
appended at the end — Python `dict` assignment semantics. -/
def dictSet (m : Memory) (k : String) (v : JValue) : Memory :=
  if (List.any m (fun p => p.1 = k)) then
    List.map (fun p => if p.1 = k then (k, v) else p) m
  else
    List.append m [(k, v)]

/-- `m.update(u)`: assign every binding of `u` into `m`, left to right —
Python `dict.update` semantics. -/
def dictUpdate (m u : Memory) : Memory :=
  List.foldl (fun acc p => dictSet acc p.1 p.2) m u

/-- `m.get(k)` / `m[k]`: the value at the first (and, for a well-formed dict,
only) occurrence of `k`. -/
def dictLookup (m : Memory) (k : String) : Option JValue :=
  Option.map Prod.snd (List.find? (fun p => p.1 = k) m)

/-- The graph state (`AgentState` TypedDict of `src/agent_graph.py`, plus the
`executor_output` key that `supervisor_node` reads even though no node ever
writes it).  `none` = key absent from the dict. -/
structure AgentState where
  user_input : Option String := none
  research_notes : Option (List String) := none
  final_note : Option String := none
  next : Option (Option String) := none
  iterations : Option Int := none
  max_iterations : Option Int := none
  needs_more : Option Bool := none
  memory : Option Memory := none
  save_to_notepad : Option Bool := none
  executor_output : Option String := none
deriving Repr, DecidableEq

/-- A partial dict returned by a node, to be merged into the state.  Only the
keys some node actually returns appear; `none` = key not in the returned
dict. -/
structure StateUpdate where
  research_notes : Option (List String) := none
  final_note : Option String := none
  next : Option (Option String) := none
  iterations : Option Int := none
  needs_more : Option Bool := none
  memory : Option Memory := none
deriving Repr, DecidableEq

/-- Merge one field of a returned dict into the state. -/
def mergeField {α : Type} (new old : Option α) : Option α :=
  match new with
  | some v => some v
  | none => old

/-- Merge a node's returned dict into the state (the graph runtime's
channel-update step: returned keys replace, absent keys persist). -/
def applyUpdate (st : AgentState) (u : StateUpdate) : AgentState :=
  { st with
    research_notes := mergeField u.research_notes st.research_notes
    final_note := mergeField u.final_note st.final_note
    next := mergeField u.next st.next
    iterations := mergeField u.iterations st.iterations
    needs_more := mergeField u.needs_more st.needs_more
    memory := mergeField u.memory st.memory }

/-! ### Memory persistence helpers (`load_memory` / `save_memory`)

The JSON file codec is the Python stdlib `json` module, an external
collaborator; we model the store at its interface.  A store is: no file at
all (`none`), a file whose content `json.load` rejects (`some none`), or a
file whose content parses to the mapping `m` (`some (some m)`).  `json.dump`
followed by `json.load` yields a structurally equal mapping, so saving `m`
produces the store `some (some m)`. -/

/-- The on-disk state of `langgraph_memory.json`. -/
def MemStore := Option (Option Memory)
deriving Repr, DecidableEq

/-- `load_memory` (src/agent_graph.py:45-52): missing file → `{}`; file
present but `json.load` raises → `{}`; otherwise the parsed mapping. -/
def load_memory (store : MemStore) : Memory :=
  match store with
  | none => []
  | some none => []
  | some (some m) => m

/-- `save_memory` (src/agent_graph.py:55-57): `json.dump(mem, f)` — the file
now exists and parses back to `mem`. -/
def save_memory (mem : Memory) : MemStore :=
  some (some mem)

/-! ### Researcher response parsing (src/agent_graph.py:177-190)

The researcher calls the Groq endpoint (`groq_research_query`) and parses the
free-text reply.  The reply is an oracle input; the parsing below is the
code's, implemented over the reply's character sequence with structural
recursion (Python's `splitlines` is modelled as splitting on `'\n'`, and
`strip`/`upper`/`lower` over the character classes Lean provides). -/

/-- `str.split(c)` over the character list. -/
def splitOnChar (c : Char) : List Char → List (List Char)
  | [] => [[]]
  | a :: rest =>
    match splitOnChar c rest with
    | [] => [[]]
    | cur :: done => if a = c then [] :: cur :: done else (a :: cur) :: done

/-- Drop leading whitespace. -/
def trimLeftChars : List Char → List Char
  | [] => []
  | a :: r => if a.isWhitespace then trimLeftChars r else a :: r

/-- Python `str.strip()`: drop whitespace at both ends. -/
def trimChars (l : List Char) : List Char :=
  List.reverse (trimLeftChars (List.reverse (trimLeftChars l)))

/-- The characters after the first `':'`, when one occurs. -/
def afterFirstColonChars : List Char → Option (List Char)
  | [] => none
  | a :: r => if a = ':' then some r else afterFirstColonChars r

/-- `l.split(":", 1)[-1]`: everything after the first `:`, or the whole
line when it holds no `:`. -/
def afterFirstColon (l : List Char) : List Char :=
  (afterFirstColonChars l).getD l

/-- `[l.strip() for l in raw.splitlines() if l.strip()]`: the stripped,
non-empty lines of the raw reply. -/
def strippedLines (raw : String) : List (List Char) :=
  List.filter (fun l => l ≠ [])
    (List.map trimChars (splitOnChar '\n' raw.toList))

/-- `notes = [l for l in lines if not l.startswith("NEEDS_MORE")]`. -/
def parseNotes (raw : String) : List String :=
  List.map String.mk
    (List.filter (fun l => ¬ List.isPrefixOf ("NEEDS_MORE".toList) l)
      (strippedLines raw))

/-- The `needs_more_flag` loop: every line whose upper-cased form starts with
`NEEDS_MORE` resets the flag to whether the text after the first `:` is
`true`/`1`/`yes` (case-insensitively); the last such line wins; initial
value `False`. -/
def parseNeedsFlag (raw : String) : Bool :=
  List.foldl
    (fun acc l =>
      if List.isPrefixOf ("NEEDS_MORE".toList) (List.map Char.toUpper l) then
        List.contains ["true".toList, "1".toList, "yes".toList]
          (List.map Char.toLower (trimChars (afterFirstColon l)))
      else acc)
    false (strippedLines raw)

/-- `"\n".join(notes)`. -/
def newlineJoin (notes : List String) : String :=
  String.mk (List.intercalate ['\n'] (List.map String.data notes))

/-! ### Node implementations -/

/-- `"needs_more" in s` — Python substring containment. -/
def containsSub (s pat : String) : Bool :=
  decide (List.IsInfix pat.toList s.toList)

/-- `supervisor_node` (src/agent_graph.py:95-119).  `loaded` is the result of
the `load_memory()` call in the `setdefault` line.  The function both
mutates the state in place (`setdefault`) and returns a routing dict, so the
embedding returns the mutated state together with the returned dict. -/
def supervisor_node (loaded : Memory) (st : AgentState) : AgentState × StateUpdate :=
  match st.user_input with
  | none => (st, { next := some none })
  | some u =>
    if u = "" then (st, { next := some none })
    else
      let st1 : AgentState :=
        { st with
          iterations := some (st.iterations.getD 0)
          max_iterations := some (st.max_iterations.getD 3)
          research_notes := some (st.research_notes.getD [])
          memory := some (st.memory.getD loaded) }
      if (st1.research_notes.getD []).length = 0 then
        (st1, { next := some (some "Researcher") })
      else
        let executor_output := st1.executor_output.getD ""
        if containsSub executor_output.toLower "needs_more" then
          (st1, { next := some (some "Researcher") })
        else
          (st1, { next := some (some "Executor") })

/-- `researcher_node` (src/agent_graph.py:123-197).  `raw?` is the outcome of
the `groq_research_query(prompt)` call: the assistant text, or an exception
(`Except.error`) when the upstream call raises.  On an exception nothing is
committed — the raise happens before any state is computed or returned. -/
def researcher_node (raw? : Except Unit String) (st : AgentState) :
    Except Unit StateUpdate :=
  match raw? with
  | Except.error e => Except.error e
  | Except.ok raw =>
    let notes := parseNotes raw
    let needs_more_flag := parseNeedsFlag raw
    let new_notes := List.append (st.research_notes.getD [])
      [newlineJoin notes]
    let iterations := st.iterations.getD 0 + 1
    Except.ok
      { research_notes := some new_notes
        iterations := some iterations
        needs_more := some needs_more_flag
        next := some (some "Executor") }

/-! ### Executor node (src/agent_graph.py:200-279) -/

/-- The result of `json.loads(raw)` viewed through the two lookups the code
performs, `parsed.get("final_note", "")` and
`parsed.get("needs_more", False)`: each key is present with a value or
absent. -/
structure ExecParsed where
  final_note : Option String := none
  needs_more : Option Bool := none
deriving Repr, DecidableEq

/-- The stdlib `json.loads`, at its interface: `none` when it raises on
`raw`, otherwise the parsed dict. -/
def JsonLoads := String → Option ExecParsed

/-- The hard-coded reply used when the executor's Groq call raises
(src/agent_graph.py:234). -/
def executorFallbackRaw : String :=
  "\x7b\"final_note\": \"Executor fallback summary.\", \"needs_more\": false\x7d"

/-- Lines 226-234: call Groq; on any exception substitute the fixed fallback
reply text. -/
def executorRaw (llm : Except Unit String) : String :=
  match llm with
  | Except.ok r => r
  | Except.error _ => executorFallbackRaw

/-- Lines 237-240: `json.loads(raw)`; on a parse exception substitute
`\x7b"final_note": raw, "needs_more": False\x7d`. -/
def executorParsed (jl : JsonLoads) (raw : String) : ExecParsed :=
  match jl raw with
  | some p => p
  | none => { final_note := some raw, needs_more := some false }

/-- The `needs_more` value the executor derives from its own LLM reply,
before the iteration-cap check. -/
def execNeedsFlag (jl : JsonLoads) (llm : Except Unit String) : Bool :=
  ((executorParsed jl (executorRaw llm)).needs_more).getD false

/-- Lines 260-279: persist memory (`memory.update(...)`; `save_memory`),
force `needs_more` false at the iteration cap, and return the node's dict.
The returned `Memory` is the snapshot passed to `save_memory`. -/
def executorCommit (st : AgentState) (final_note : String) (needs_more : Bool) :
    Except Unit (StateUpdate × Memory) :=
  let notes := st.research_notes.getD []
  let memory := st.memory.getD []
  let memory_update : Memory :=
    [("last_query", match st.user_input with
        | some q => JValue.str q
        | none => JValue.null),
     ("last_notes", JValue.strList notes),
     ("iterations", JValue.int (st.iterations.getD 0)),
     ("final_note", JValue.str final_note)]
  let mem2 := dictUpdate memory memory_update
  let needs2 :=
    if st.max_iterations.getD 3 ≤ st.iterations.getD 0 then false else needs_more
  Except.ok
    ({ final_note := some final_note
       memory := some mem2
       needs_more := some needs2
       next := some (if needs2 then some "Researcher" else none) },
     mem2)

/-- `executor_node` (src/agent_graph.py:200-279).  `llm` is the outcome of
the executor's own Groq call; `jl` the stdlib JSON parser; `sink` the
outcome of the `open(...)` / `f.write(...)` append to the notepad file
(NOT wrapped in any try/except in the source, so an exception propagates
out of the node); `notepadRes` the outcome of the `os.system` notepad
launch, which IS wrapped in try/except and is therefore ignored. -/
def executor_node (llm : Except Unit String) (jl : JsonLoads)
    (sink : Except Unit Unit) (_notepadRes : Except Unit Unit)
    (st : AgentState) : Except Unit (StateUpdate × Memory) :=
  let raw := executorRaw llm
  let parsed := executorParsed jl raw
  let final_note := parsed.final_note.getD ""
  let needs_more := parsed.needs_more.getD false
  let save_flag := st.save_to_notepad.getD false
  if save_flag then
    match sink with
    | Except.error e => Except.error e
    | Except.ok _ => executorCommit st final_note needs_more
  else
    executorCommit st final_note needs_more

/-! ### The run driver

The module's flowchart (src/agent_graph.py:1-10) gives the routing semantics
of the graph: the supervisor routes once at the start, the researcher hands
to the executor, and the executor loops back to the researcher exactly when
`needs_more` holds (and `iterations < max_iterations`), otherwise the run
ends.  Each node encodes this in the `"next"` key of its returned dict; the
driver below follows that key.

External calls are supplied by an `Oracles` record, indexed by the value of
the `iterations` counter at the moment of the call (the researcher's Groq
call at current `iterations`, the executor's calls at the post-increment
value).  The driver counts researcher (producer) invocations and returns the
count with the final state.  Recursion is fuel-bounded; running out of fuel
is a distinguished outcome, never confused with normal termination. -/

/-- Outcomes of the external calls a run performs. -/
structure Oracles where
  research : Int → Except Unit String
  execLLM : Int → Except Unit String
  jsonLoads : JsonLoads
  sink : Int → Except Unit Unit
  notepad : Int → Except Unit Unit

/-- How a run can fail to return a final state. -/
inductive RunError where
  | fuelOut
  | unknownNode
  | producerFailure (st : AgentState)
  | executorAbort (st : AgentState)
deriving Repr, DecidableEq

/-- Follow the `"next"` routing from state `st`, with `k` producer
invocations performed so far. -/
def runFrom (o : Oracles) : Nat → Nat → AgentState → Except RunError (AgentState × Nat)
  | 0, _, _ => Except.error RunError.fuelOut
  | fuel + 1, k, st =>
    match st.next.getD none with
    | none => Except.ok (st, k)
    | some name =>
      if name = "Researcher" then
        match researcher_node (o.research (st.iterations.getD 0)) st with
        | Except.error _ => Except.error (RunError.producerFailure st)
        | Except.ok upd => runFrom o fuel (k + 1) (applyUpdate st upd)
      else if name = "Executor" then
        let i := st.iterations.getD 0
        match executor_node (o.execLLM i) o.jsonLoads (o.sink i) (o.notepad i) st with
        | Except.error _ => Except.error (RunError.executorAbort st)
        | Except.ok (upd, _) => runFrom o fuel k (applyUpdate st upd)
      else
        Except.error RunError.unknownNode

/-- One full run: the supervisor routes first (mutating the state via its
`setdefault` calls and returning a routing dict), then the driver follows
the `"next"` keys. -/
def run (o : Oracles) (loaded : Memory) (fuel : Nat) (init : AgentState) :
    Except RunError (AgentState × Nat) :=
  let step := supervisor_node loaded init
  runFrom o fuel 0 (applyUpdate step.1 step.2)

/-- The initial state built at src/agent_graph.py:311-318, with the
`max_iterations` literal (`2` in the script) generalised to a parameter so
the cap can be varied per claim. -/
def mkInitialState (q : String) (maxIter : Int) (mem : Memory) (save : Bool) :
    AgentState :=
  { user_input := some q
    iterations := some 0
    max_iterations := some maxIter
    research_notes := some []
    memory := some mem
    save_to_notepad := some save }

/-- The script's `initial_state` literal (src/agent_graph.py:311-318):
`max_iterations` is fixed to `2` there. -/
def initial_state (q : String) (mem : Memory) (save : Bool) : AgentState :=
  mkInitialState q 2 mem save

/-- The state right after the supervisor routed a fresh, fully populated
initial state to the researcher (a proof-side name for the merged state). -/
def entryState (q : String) (maxIter : Int) (mem : Memory) (save : Bool) :
    AgentState :=
  { user_input := some q
    research_notes := some []
    next := some (some "Researcher")
    iterations := some 0
    max_iterations := some maxIter
    memory := some mem
    save_to_notepad := some save }

/-- Number of producer invocations of a completed run, `none` when the run
did not complete normally. -/
def resultCount (r : Except RunError (AgentState × Nat)) : Option Nat :=
  match r with
  | Except.ok (_, k) => some k
  | Except.error _ => none

/-- The `final_note` field of an executor node's returned dict, `none` when
the node aborted. -/
def extractFinal (r : Except Unit (StateUpdate × Memory)) : Option (Option String) :=
  match r with
  | Except.ok (u, _) => some u.final_note
  | Except.error _ => none

/-! ### Concrete oracle instances used to evaluate the model -/

/-- A JSON parser outcome whose dict always asks for more work. -/
def jlTrue : JsonLoads :=
  fun _ => some { final_note := some "note", needs_more := some true }

/-- A JSON parser outcome whose dict never asks for more work. -/
def jlFalse : JsonLoads :=
  fun _ => some { final_note := some "note", needs_more := some false }

/-- A JSON parser that raises on every input. -/
def jlFail : JsonLoads := fun _ => none

/-- Every external call succeeds and every reply asks for more research. -/
def oAlways : Oracles :=
  { research := fun _ => Except.ok "fact"
    execLLM := fun _ => Except.ok "reply"
    jsonLoads := jlTrue
    sink := fun _ => Except.ok ()
    notepad := fun _ => Except.ok () }

/-- Every external call succeeds and no reply ever asks for more research. -/
def oNever : Oracles :=
  { research := fun _ => Except.ok "fact"
    execLLM := fun _ => Except.ok "reply"
    jsonLoads := jlFalse
    sink := fun _ => Except.ok ()
    notepad := fun _ => Except.ok () }

/-- The producer succeeds on its first invocation and raises on every later
one; the executor always asks for more. -/
def oFail2 : Oracles :=
  { research := fun i => if i = 0 then Except.ok "alpha" else Except.error ()
    execLLM := fun _ => Except.ok "reply"
    jsonLoads := jlTrue
    sink := fun _ => Except.ok ()
    notepad := fun _ => Except.ok () }

/-- A concrete executor invocation against a memory holding a pre-existing
key, used to evaluate the frame property. -/
def exec9 : Except Unit (StateUpdate × Memory) :=
  executor_node (Except.ok "x") jlFail (Except.ok ()) (Except.ok ())
    (mkInitialState "q" 2 [("old", JValue.int 7)] false)

/-- The update returned by `exec9`. -/
def upd9 : StateUpdate :=
  match exec9 with
  | Except.ok (u, _) => u
  | Except.error _ => {}

/-- The memory snapshot persisted by `exec9`. -/
def mem9 : Memory :=
  match exec9 with
  | Except.ok (_, m) => m
  | Except.error _ => []

/-! ### Step lemmas for the driver -/

theorem runFrom_done (o : Oracles) (f k : Nat) (st : AgentState)
    (h : st.next = some none) : runFrom o (f + 1) k st = Except.ok (st, k) := by
  simp [runFrom, h]

theorem runFrom_research (o : Oracles) (f k : Nat) (st : AgentState)
    (h : st.next = some (some "Researcher")) :
    runFrom o (f + 1) k st =
      match researcher_node (o.research (st.iterations.getD 0)) st with
      | Except.error _ => Except.error (RunError.producerFailure st)
      | Except.ok upd => runFrom o f (k + 1) (applyUpdate st upd) := by
  simp [runFrom, h]

theorem runFrom_exec (o : Oracles) (f k : Nat) (st : AgentState)
    (h : st.next = some (some "Executor")) :
    runFrom o (f + 1) k st =
      match executor_node (o.execLLM (st.iterations.getD 0)) o.jsonLoads
          (o.sink (st.iterations.getD 0)) (o.notepad (st.iterations.getD 0)) st with
      | Except.error _ => Except.error (RunError.executorAbort st)
      | Except.ok (upd, _) => runFrom o f k (applyUpdate st upd) := by
  simp [runFrom, h]

theorem runFrom_stepNone (o : Oracles) (f k : Nat) (st : AgentState)
    (h : st.next.getD none = none) : runFrom o (f + 1) k st = Except.ok (st, k) := by
  simp [runFrom, h]

theorem runFrom_stepR (o : Oracles) (f k : Nat) (st : AgentState)
    (h : st.next.getD none = some "Researcher") :
    runFrom o (f + 1) k st =
      match researcher_node (o.research (st.iterations.getD 0)) st with
      | Except.error _ => Except.error (RunError.producerFailure st)
      | Except.ok upd => runFrom o f (k + 1) (applyUpdate st upd) := by
  simp [runFrom, h]

theorem runFrom_stepE (o : Oracles) (f k : Nat) (st : AgentState)
    (h : st.next.getD none = some "Executor") :
    runFrom o (f + 1) k st =
      match executor_node (o.execLLM (st.iterations.getD 0)) o.jsonLoads
          (o.sink (st.iterations.getD 0)) (o.notepad (st.iterations.getD 0)) st with
      | Except.error _ => Except.error (RunError.executorAbort st)
      | Except.ok (upd, _) => runFrom o f k (applyUpdate st upd) := by
  simp [runFrom, h]

theorem runFrom_stepOther (o : Oracles) (f k : Nat) (st : AgentState)
    (name : String) (h : st.next.getD none = some name)
    (h1 : name ≠ "Researcher") (h2 : name ≠ "Executor") :
    runFrom o (f + 1) k st = Except.error RunError.unknownNode := by
  simp [runFrom, h, h1, h2]

/-- A researcher step whose Groq call succeeds: the driver moves to the
merged state, bumping the producer-invocation count. -/
theorem research_step (o : Oracles) (f k : Nat) (st : AgentState) (i : Int)
    (raw : String)
    (hnext : st.next = some (some "Researcher"))
    (hiter : st.iterations = some i)
    (hraw : o.research i = Except.ok raw) :
    ∃ st2 : AgentState,
      runFrom o (f + 1) k st = runFrom o f (k + 1) st2 ∧
      st2.iterations = some (i + 1) ∧
      st2.max_iterations = st.max_iterations ∧
      st2.save_to_notepad = st.save_to_notepad ∧
      st2.user_input = st.user_input ∧
      st2.memory = st.memory ∧
      st2.research_notes = some (List.append (st.research_notes.getD [])
        [newlineJoin (parseNotes raw)]) ∧
      st2.needs_more = some (parseNeedsFlag raw) ∧
      st2.next = some (some "Executor") := by
  have h := runFrom_research o f k st hnext
  rw [hiter] at h
  simp only [Option.getD_some, hraw, researcher_node] at h
  refine ⟨_, h, ?_, ?_, ?_, ?_, ?_, ?_, ?_, ?_⟩ <;>
    simp [applyUpdate, mergeField, hiter]

/-- A researcher step whose Groq call raises: the run aborts with
`producerFailure` carrying the pre-step state — nothing is committed. -/
theorem research_fail (o : Oracles) (f k : Nat) (st : AgentState)
    (hnext : st.next = some (some "Researcher"))
    (hfail : o.research (st.iterations.getD 0) = Except.error ()) :
    runFrom o (f + 1) k st = Except.error (RunError.producerFailure st) := by
  rw [runFrom_research o f k st hnext, hfail]
  simp [researcher_node]

/-- An executor step with the notepad opt-in off: the driver moves to the
merged state; `needs_more` is the executor's own parsed flag, forced false
at the iteration cap, and `next` routes back to the researcher exactly when
the resulting flag is true. -/
theorem exec_step (o : Oracles) (f k : Nat) (st2 : AgentState) (i1 N : Int)
    (hnext : st2.next = some (some "Executor"))
    (hiter : st2.iterations = some i1)
    (hmax : st2.max_iterations = some N)
    (hsave : st2.save_to_notepad = some false) :
    ∃ st3 : AgentState,
      runFrom o (f + 1) k st2 = runFrom o f k st3 ∧
      st3.iterations = some i1 ∧
      st3.max_iterations = some N ∧
      st3.save_to_notepad = some false ∧
      st3.user_input = st2.user_input ∧
      st3.research_notes = st2.research_notes ∧
      st3.needs_more = some (if N ≤ i1 then false
        else execNeedsFlag o.jsonLoads (o.execLLM i1)) ∧
      st3.next = some (if (if N ≤ i1 then false
        else execNeedsFlag o.jsonLoads (o.execLLM i1)) then some "Researcher"
        else none) := by
  have h := runFrom_exec o f k st2 hnext
  rw [hiter] at h
  simp only [Option.getD_some, executor_node, executorCommit, hsave, hmax,
    Bool.false_eq_true, if_false, execNeedsFlag] at h
  refine ⟨_, h, ?_, ?_, ?_, ?_, ?_, ?_, ?_⟩ <;>
    simp [applyUpdate, mergeField, hiter, hmax, hsave, execNeedsFlag]

/-- The refinement loop under a producer/evaluator that always asks for more:
starting at the researcher with `j` iterations left before the cap, exactly
`j` further producer invocations happen, after which the cap check forces
`needs_more` false and routing stops. -/
theorem loop_exact (o : Oracles)
    (hres : ∀ i : Int, ∃ raw, o.research i = Except.ok raw)
    (hneeds : ∀ i : Int, execNeedsFlag o.jsonLoads (o.execLLM i) = true) :
    ∀ (j : Nat), 1 ≤ j → ∀ (f k : Nat) (st : AgentState) (i N : Int),
      st.next = some (some "Researcher") → st.iterations = some i →
      st.max_iterations = some N → st.save_to_notepad = some false →
      i + j = N →
      ∃ st' : AgentState,
        runFrom o (f + (2 * j + 1)) k st = Except.ok (st', k + j) ∧
        st'.needs_more = some false ∧ st'.next = some none ∧
        st'.iterations = some N := by
  intro j
  induction j with
  | zero => intro hj; exact absurd hj (by omega)
  | succ j ih =>
    intro _ f k st i N hnext hiter hmax hsave hsum
    obtain ⟨raw, hraw⟩ := hres i
    have e1 : f + (2 * (j + 1) + 1) = (f + (2 * j + 1) + 1) + 1 := by ring
    rw [e1]
    obtain ⟨st2, h2, h2i, h2m, h2s, _, _, _, _, h2n⟩ :=
      research_step o (f + (2 * j + 1) + 1) k st i raw hnext hiter hraw
    rw [h2]
    obtain ⟨st3, h3, h3i, h3m, h3s, _, _, h3nm, h3n⟩ :=
      exec_step o (f + (2 * j + 1)) (k + 1) st2 (i + 1) N h2n h2i
        (h2m.trans hmax) (h2s.trans hsave)
    rw [h3]
    by_cases hj0 : j = 0
    · subst hj0
      have hcap : N ≤ i + 1 := by omega
      have h3nm' : st3.needs_more = some false := by rw [h3nm]; simp [hcap]
      have h3n' : st3.next = some none := by rw [h3n]; simp [hcap]
      have e2 : f + (2 * 0 + 1) = f + 1 := by ring
      rw [e2]
      refine ⟨st3, ?_, h3nm', h3n',
        by rw [h3i]; exact congrArg some (by omega)⟩
      rw [runFrom_done o f (k + 1) st3 h3n']
    · have hj1 : 1 ≤ j := by omega
      have hcap : ¬ (N ≤ i + 1) := by omega
      have h3n' : st3.next = some (some "Researcher") := by
        rw [h3n]; simp [hcap, hneeds (i + 1)]
      obtain ⟨st', hrun, hnm, hnx, hit⟩ :=
        ih hj1 f (k + 1) st3 (i + 1) N h3n' h3i h3m h3s (by omega)
      have ek : k + 1 + j = k + (j + 1) := by omega
      rw [ek] at hrun
      exact ⟨st', hrun, hnm, hnx, hit⟩

/-- The cap is absolute: whatever the oracles return, a normally completed
run performs at most `(max_iterations - iterations)` further producer
invocations from any state that routes to the researcher only below the
cap. -/
theorem runFrom_count_le (o : Oracles) :
    ∀ (fuel k : Nat) (st : AgentState) (i N : Int) (st' : AgentState) (k' : Nat),
      st.iterations = some i → st.max_iterations = some N →
      (st.next.getD none = some "Researcher" → i < N) →
      runFrom o fuel k st = Except.ok (st', k') → k' ≤ k + (N - i).toNat := by
  intro fuel
  induction fuel with
  | zero =>
    intro k st i N st' k' _ _ _ h
    simp [runFrom] at h
  | succ fuel ih =>
    intro k st i N st' k' hiter hmax hR h
    cases hnext : st.next.getD none with
    | none =>
      rw [runFrom_stepNone o fuel k st hnext] at h
      simp only [Except.ok.injEq, Prod.mk.injEq] at h
      omega
    | some name =>
      by_cases hRn : name = "Researcher"
      · subst hRn
        rw [runFrom_stepR o fuel k st hnext] at h
        have hiN : i < N := hR hnext
        cases hr : o.research (st.iterations.getD 0) with
        | error e =>
          rw [hr] at h
          simp [researcher_node] at h
        | ok raw =>
          rw [hr] at h
          simp only [researcher_node] at h
          have hb := ih (k + 1) _ (i + 1) N st' k'
            (by simp [applyUpdate, mergeField, hiter])
            (by simp [applyUpdate, mergeField, hmax])
            (by intro hc; simp [applyUpdate, mergeField] at hc) h
          omega
      · by_cases hEx : name = "Executor"
        · subst hEx
          rw [runFrom_stepE o fuel k st hnext] at h
          simp only [executor_node] at h
          by_cases hs : st.save_to_notepad.getD false
          · rw [if_pos hs] at h
            cases hsink : o.sink (st.iterations.getD 0) with
            | error e => rw [hsink] at h; simp at h
            | ok u =>
              rw [hsink] at h
              simp only [executorCommit] at h
              by_cases hcap : N ≤ i
              · have hb := ih k _ i N st' k'
                  (by simp [applyUpdate, mergeField, hiter])
                  (by simp [applyUpdate, mergeField, hmax])
                  (by intro hc
                      simp [applyUpdate, mergeField, hiter, hmax, hcap] at hc) h
                omega
              · have hb := ih k _ i N st' k'
                  (by simp [applyUpdate, mergeField, hiter])
                  (by simp [applyUpdate, mergeField, hmax])
                  (fun _ => by omega) h
                omega
          · rw [if_neg hs] at h
            simp only [executorCommit] at h
            by_cases hcap : N ≤ i
            · have hb := ih k _ i N st' k'
                (by simp [applyUpdate, mergeField, hiter])
                (by simp [applyUpdate, mergeField, hmax])
                (by intro hc
                    simp [applyUpdate, mergeField, hiter, hmax, hcap] at hc) h
              omega
            · have hb := ih k _ i N st' k'
                (by simp [applyUpdate, mergeField, hiter])
                (by simp [applyUpdate, mergeField, hmax])
                (fun _ => by omega) h
              omega
        · rw [runFrom_stepOther o fuel k st name hnext hRn hEx] at h
          simp at h

/-- Entering a run from the script's initial state with a non-empty query:
the supervisor installs no new defaults (every key is already present) and
routes to the researcher. -/
theorem run_entry (o : Oracles) (loaded : Memory) (fuel : Nat) (q : String)
    (N : Int) (mem : Memory) (save : Bool) (hq : q ≠ "") :
    run o loaded fuel (mkInitialState q N mem save) =
      runFrom o fuel 0 (entryState q N mem save) := by
  simp [run, supervisor_node, mkInitialState, entryState, applyUpdate,
    mergeField, hq]

/-! ### Dictionary lemmas for the memory snapshot -/

theorem find_map_set_ne (k k' : String) (v : JValue) (h : k' ≠ k) :
    ∀ m : List (String × JValue),
      List.find? (fun p => p.1 = k')
          (List.map (fun p => if p.1 = k then (k, v) else p) m) =
        List.find? (fun p => p.1 = k') m := by
  have hkk : ¬ (k = k') := fun e => h e.symm
  intro m
  induction m with
  | nil => rfl
  | cons p t ih =>
    by_cases hp : p.1 = k
    · have hhead : (fun q : String × JValue => if q.1 = k then (k, v) else q) p
        = (k, v) := by simp [hp]
      simp only [List.map_cons, hhead]
      rw [List.find?_cons_of_neg _ (by simp [hkk]),
        List.find?_cons_of_neg _ (by simp [hp, hkk])]
      exact ih
    · have hhead : (fun q : String × JValue => if q.1 = k then (k, v) else q) p
        = p := by simp [hp]
      simp only [List.map_cons, hhead]
      by_cases hd : p.1 = k'
      · rw [List.find?_cons_of_pos _ (by simp [hd]),
          List.find?_cons_of_pos _ (by simp [hd])]
      · rw [List.find?_cons_of_neg _ (by simp [hd]),
          List.find?_cons_of_neg _ (by simp [hd])]
        exact ih

theorem dictLookup_dictSet_ne (m : Memory) (k k' : String) (v : JValue)
    (h : k' ≠ k) : dictLookup (dictSet m k v) k' = dictLookup m k' := by
  have hkk : ¬ (k = k') := fun e => h e.symm
  unfold dictSet dictLookup
  by_cases hany : List.any m (fun p => p.1 = k)
  · rw [if_pos hany, find_map_set_ne k k' v h m]
  · rw [if_neg hany]
    simp only [List.append_eq, List.find?_append]
    have hone : List.find? (fun p => decide (p.1 = k')) [(k, v)] = none := by
      simp [hkk]
    rw [hone]
    cases hf : List.find? (fun p => decide (p.1 = k')) m <;> simp

theorem dictLookup_dictSet_self (m : Memory) (k : String) (v : JValue) :
    dictLookup (dictSet m k v) k = some v := by
  unfold dictSet dictLookup
  by_cases hany : List.any m (fun p => p.1 = k)
  · rw [if_pos hany]
    induction m with
    | nil => simp at hany
    | cons p t ih =>
      by_cases hp : p.1 = k
      · simp [hp]
      · have ht : List.any t (fun p => p.1 = k) := by
          simpa [hp] using hany
        simpa [hp] using ih ht
  · rw [if_neg hany]
    have hnone : List.find? (fun p => decide (p.1 = k)) m = none := by
      rw [List.find?_eq_none]
      intro p hp
      simp only [List.any_eq_true] at hany
      exact fun e => hany ⟨p, hp, e⟩
    simp [hnone]

/-- The committed snapshot merges into the pre-existing memory: every key
other than the four the executor writes keeps its value. -/
theorem executorCommit_frame (st : AgentState) (fn : String) (nm : Bool)
    (u : StateUpdate) (m : Memory)
    (h : executorCommit st fn nm = Except.ok (u, m)) :
    u.memory = some m ∧
    ∀ key : String, key ≠ "last_query" → key ≠ "last_notes" →
      key ≠ "iterations" → key ≠ "final_note" →
      dictLookup m key = dictLookup (st.memory.getD []) key := by
  simp only [executorCommit, Except.ok.injEq, Prod.mk.injEq] at h
  obtain ⟨hu, hm⟩ := h
  constructor
  · rw [← hu, ← hm]
  · intro key h1 h2 h3 h4
    rw [← hm]
    simp only [dictUpdate, List.foldl]
    rw [dictLookup_dictSet_ne _ _ _ _ h4, dictLookup_dictSet_ne _ _ _ _ h3,
      dictLookup_dictSet_ne _ _ _ _ h2, dictLookup_dictSet_ne _ _ _ _ h1]

/-- C2: when the iteration counter has reached `max_iterations` at the cap
check, the executor forces `needs_more = false` in its returned record and
routes no further producer step (`next = None`), regardless of what the
producer or evaluator asked for. -/
theorem claim2_cap_forces_stop (llm : Except Unit String) (jl : JsonLoads)
    (sink np : Except Unit Unit) (st : AgentState)
    (hsink : st.save_to_notepad.getD false = false ∨ sink = Except.ok ())
    (hcap : st.max_iterations.getD 3 ≤ st.iterations.getD 0) :
    ∃ u m, executor_node llm jl sink np st = Except.ok (u, m) ∧
      u.needs_more = some false ∧ u.next = some none := by
  unfold executor_node executorCommit
  rcases hsink with hs | hs
  · rw [hs]
    simp only [Bool.false_eq_true, if_false, if_pos hcap]
    exact ⟨_, _, rfl, rfl, rfl⟩
  · by_cases hflag : st.save_to_notepad.getD false
    · rw [hs]
      simp only [hflag, if_true, if_pos hcap]
      exact ⟨_, _, rfl, rfl, rfl⟩
    · simp only [hflag, Bool.false_eq_true, if_false, if_pos hcap]
      exact ⟨_, _, rfl, rfl, rfl⟩

/-- C2 witness: a concrete executor call at the cap. -/
theorem claim2_cap_forces_stop_witness :
    ∃ u m, executor_node (Except.ok "x") jlTrue (Except.ok ()) (Except.ok ())
      { iterations := some 3, max_iterations := some 3 } = Except.ok (u, m) ∧
      u.needs_more = some false ∧ u.next = some none :=
  claim2_cap_forces_stop (Except.ok "x") jlTrue (Except.ok ()) (Except.ok ())
    { iterations := some 3, max_iterations := some 3 } (Or.inr rfl) (by decide)

/-- C5 counterexample: on unparsable finalization input the fallback
`final_note` is the raw malformed input itself — two different malformed
inputs give two different outputs, so the fallback is not
input-independent. -/
theorem claim5_fallback_counterexample :
    extractFinal (executor_node (Except.ok "abc") jlFail (Except.ok ())
        (Except.ok ()) {}) = some (some "abc") ∧
    extractFinal (executor_node (Except.ok "xyz") jlFail (Except.ok ())
        (Except.ok ()) {}) = some (some "xyz") ∧
    ("abc" : String) ≠ "xyz" :=
  ⟨rfl, rfl, by decide⟩

/-- C5 amended: on unparsable finalization input the finalizer does not
raise; it sets `final_note` to the raw malformed input itself (not to a
fixed fallback), leaves `research_notes` untouched in its returned dict,
and persists the accumulated notes under `last_notes`. -/
theorem claim5_fallback_amended (raw : String) (jl : JsonLoads)
    (sink np : Except Unit Unit) (st : AgentState)
    (hparse : jl raw = none)
    (hsink : st.save_to_notepad.getD false = false ∨ sink = Except.ok ()) :
    ∃ u m, executor_node (Except.ok raw) jl sink np st = Except.ok (u, m) ∧
      u.final_note = some raw ∧ u.research_notes = none ∧
      dictLookup m "last_notes"
        = some (JValue.strList (st.research_notes.getD [])) := by
  simp only [executor_node, executorRaw, executorParsed, executorCommit, hparse]
  have hlook : dictLookup
      (dictUpdate (st.memory.getD [])
        [("last_query", match st.user_input with
            | some q => JValue.str q
            | none => JValue.null),
         ("last_notes", JValue.strList (st.research_notes.getD [])),
         ("iterations", JValue.int (st.iterations.getD 0)),
         ("final_note", JValue.str ((some raw).getD ""))]) "last_notes"
      = some (JValue.strList (st.research_notes.getD [])) := by
    simp only [dictUpdate, List.foldl]
    rw [dictLookup_dictSet_ne _ _ _ _ (by decide),
      dictLookup_dictSet_ne _ _ _ _ (by decide),
      dictLookup_dictSet_self]
  rcases hsink with hs | hs
  · rw [hs]
    simp only [Bool.false_eq_true, if_false]
    exact ⟨_, _, rfl, rfl, rfl, hlook⟩
  · by_cases hflag : st.save_to_notepad.getD false
    · rw [hs]
      simp only [hflag, if_true]
      exact ⟨_, _, rfl, rfl, rfl, hlook⟩
    · simp only [hflag, Bool.false_eq_true, if_false]
      exact ⟨_, _, rfl, rfl, rfl, hlook⟩

/-- C5 witness: a concrete unparsable finalization input. -/
theorem claim5_fallback_witness :
    ∃ u m, executor_node (Except.ok "oops") jlFail (Except.ok ())
        (Except.ok ()) (mkInitialState "q" 2 [] false) = Except.ok (u, m) ∧
      u.final_note = some "oops" ∧ u.research_notes = none ∧
      dictLookup m "last_notes" = some (JValue.strList
        (((mkInitialState "q" 2 [] false).research_notes).getD [])) :=
  claim5_fallback_amended "oops" jlFail (Except.ok ()) (Except.ok ())
    (mkInitialState "q" 2 [] false) rfl (Or.inl rfl)

/-- C6 counterexample: a failing notes-sink append (the un-guarded
`open`/`write` in the source) aborts the executor node: no memory is
persisted and no `final_note` is returned, contradicting the claim that a
sink failure never aborts the run. -/
theorem claim6_sink_counterexample :
    executor_node (Except.ok "x") jlFail (Except.error ()) (Except.ok ())
      { save_to_notepad := some true } = Except.error () := rfl

/-- C6 amended: when the notepad opt-in is on, a failure of the notes-sink
file append itself propagates and aborts the executor node before memory
persistence and `final_note` are committed; only the subsequent
Notepad-launch (`os.system`, wrapped in try/except) is best-effort — its
outcome never changes the node's result. -/
theorem claim6_sink_aborts (llm : Except Unit String) (jl : JsonLoads)
    (sink np np' : Except Unit Unit) (st : AgentState)
    (hflag : st.save_to_notepad.getD false = true) :
    executor_node llm jl (Except.error ()) np st = Except.error () ∧
    executor_node llm jl sink np st = executor_node llm jl sink np' st := by
  constructor
  · simp [executor_node, hflag]
  · rfl

/-- C6 witness: a concrete state with the notepad opt-in on. -/
theorem claim6_sink_aborts_witness :
    executor_node (Except.ok "x") jlFail (Except.error ()) (Except.ok ())
      { save_to_notepad := some true } = Except.error () ∧
    executor_node (Except.ok "x") jlFail (Except.ok ()) (Except.ok ())
      { save_to_notepad := some true }
      = executor_node (Except.ok "x") jlFail (Except.ok ()) (Except.error ())
      { save_to_notepad := some true } :=
  claim6_sink_aborts (Except.ok "x") jlFail (Except.ok ()) (Except.ok ())
    (Except.error ()) { save_to_notepad := some true } rfl

/-- C8: for a store untouched between the calls, `save(load())` is a no-op:
loading again yields a mapping structurally equal to the first `load()`. -/
theorem claim8_memory_roundtrip (store : MemStore) :
    load_memory (save_memory (load_memory store)) = load_memory store := by
  cases store with
  | none => rfl
  | some s => cases s <;> rfl

/-- C9: the executor merges into the pre-existing memory rather than
replacing it: every key other than `last_query`, `last_notes`,
`iterations`, `final_note` keeps its value in the persisted snapshot, and
the returned `memory` field is exactly that snapshot. -/
theorem claim9_memory_frame (llm : Except Unit String) (jl : JsonLoads)
    (sink np : Except Unit Unit) (st : AgentState) (u : StateUpdate)
    (m : Memory)
    (h : executor_node llm jl sink np st = Except.ok (u, m)) :
    u.memory = some m ∧
    ∀ key : String, key ≠ "last_query" → key ≠ "last_notes" →
      key ≠ "iterations" → key ≠ "final_note" →
      dictLookup m key = dictLookup (st.memory.getD []) key := by
  unfold executor_node at h
  by_cases hflag : st.save_to_notepad.getD false
  · rw [if_pos hflag] at h
    cases hsink : sink with
    | error e => rw [hsink] at h; cases h
    | ok v => rw [hsink] at h; exact executorCommit_frame st _ _ u m h
  · rw [if_neg hflag] at h
    exact executorCommit_frame st _ _ u m h

/-- C9 witness: a pre-existing key `old` survives a concrete executor
call. -/
theorem claim9_memory_frame_witness :
    upd9.memory = some mem9 ∧
    dictLookup mem9 "old" = dictLookup
      (((mkInitialState "q" 2 [("old", JValue.int 7)] false).memory).getD [])
      "old" := by
  have h : executor_node (Except.ok "x") jlFail (Except.ok ()) (Except.ok ())
      (mkInitialState "q" 2 [("old", JValue.int 7)] false)
      = Except.ok (upd9, mem9) := rfl
  have hc := claim9_memory_frame (Except.ok "x") jlFail (Except.ok ())
    (Except.ok ()) (mkInitialState "q" 2 [("old", JValue.int 7)] false)
    upd9 mem9 h
  exact ⟨hc.1, hc.2 "old" (by decide) (by decide) (by decide) (by decide)⟩

/-- C10: with `user_input` missing or empty, the supervisor returns only
`\x7b"next": None\x7d` and performs no other state change — no defaults are
installed, no loaded memory is attached, nothing else is touched. -/
theorem claim10_empty_input_routes_none (loaded : Memory) (st : AgentState)
    (h : st.user_input = none ∨ st.user_input = some "") :
    supervisor_node loaded st = (st, { next := some none }) := by
  rcases h with h | h <;> simp [supervisor_node, h]

/-- C10 witness: the empty state. -/
theorem claim10_empty_input_routes_none_witness :
    supervisor_node [] {} = ({}, { next := some none }) :=
  claim10_empty_input_routes_none [] {} (Or.inl rfl)

/-- C1: with `max_iterations = N ≥ 1` and a producer/evaluator that always
asks for more, the run performs exactly `N` producer invocations and then
terminates with `needs_more` false and no further routing; and for ANY
oracle behaviour, a normally completed run never exceeds `N` producer
invocations. -/
theorem claim1_cap_bounds_invocations (q : String) (N : Int)
    (mem loaded : Memory) (o : Oracles) (f : Nat)
    (hq : q ≠ "") (hN : 1 ≤ N)
    (hres : ∀ i : Int, ∃ raw, o.research i = Except.ok raw)
    (hneeds : ∀ i : Int, execNeedsFlag o.jsonLoads (o.execLLM i) = true) :
    (∃ st', run o loaded (f + (2 * N.toNat + 1)) (mkInitialState q N mem false)
        = Except.ok (st', N.toNat) ∧ st'.needs_more = some false ∧
        st'.next = some none) ∧
    (∀ (o' : Oracles) (loaded' : Memory) (fuel : Nat) (st' : AgentState)
        (k' : Nat),
      run o' loaded' fuel (mkInitialState q N mem false)
          = Except.ok (st', k') → k' ≤ N.toNat) := by
  constructor
  · rw [run_entry o loaded _ q N mem false hq]
    obtain ⟨st', h, hnm, hnx, -⟩ := loop_exact o hres hneeds N.toNat
      (by omega) f 0 (entryState q N mem false) 0 N rfl rfl rfl rfl
      (by omega)
    rw [Nat.zero_add] at h
    exact ⟨st', h, hnm, hnx⟩
  · intro o' loaded' fuel st' k' hrun
    rw [run_entry o' loaded' fuel q N mem false hq] at hrun
    have hb := runFrom_count_le o' fuel 0 (entryState q N mem false) 0 N
      st' k' rfl rfl (fun _ => by omega) hrun
    omega

/-- C1 witness: `max_iterations = 2` with an always-asking producer yields
exactly two producer invocations. -/
theorem claim1_cap_bounds_invocations_witness :
    ∃ st', run oAlways [] 5 (mkInitialState "hi" 2 [] false)
      = Except.ok (st', 2) ∧ st'.needs_more = some false ∧
      st'.next = some none :=
  (claim1_cap_bounds_invocations "hi" 2 [] [] oAlways 0 (by decide) (by decide)
    (fun _ => ⟨"fact", rfl⟩) (fun _ => rfl)).1

/-- C3 counterexample: with `max_iterations = 0 < 1` the run does not fail —
no `InvalidConfiguration` exists anywhere in the code — and a producer step
does run: the run completes normally after exactly one producer
invocation. -/
theorem claim3_validation_counterexample :
    resultCount (run oAlways [] 5 (mkInitialState "q" 0 [] false)) = some 1 :=
  rfl

/-- C3 amended: the code performs no `max_iterations` validation.  With
`max_iterations < 1` (and a non-empty query) the run does not fail: the
supervisor routes to the producer, exactly one producer invocation occurs,
and the cap check then forces `needs_more` false and ends the run. -/
theorem claim3_no_validation (q : String) (N : Int) (mem loaded : Memory)
    (o : Oracles) (f : Nat)
    (hq : q ≠ "") (hN : N < 1)
    (hres0 : ∃ raw, o.research 0 = Except.ok raw) :
    ∃ st', run o loaded (f + 3) (mkInitialState q N mem false)
      = Except.ok (st', 1) ∧ st'.needs_more = some false ∧
      st'.next = some none := by
  obtain ⟨raw, hraw⟩ := hres0
  rw [run_entry o loaded _ q N mem false hq,
    show f + 3 = f + 2 + 1 from rfl]
  obtain ⟨st2, h2, h2i, h2m, h2s, -, -, -, -, h2n⟩ :=
    research_step o (f + 2) 0 (entryState q N mem false) 0 raw rfl rfl hraw
  rw [h2, show f + 2 = f + 1 + 1 from rfl]
  obtain ⟨st3, h3, h3i, h3m, h3s, -, -, h3nm, h3n⟩ :=
    exec_step o (f + 1) 1 st2 (0 + 1) N h2n h2i (h2m.trans rfl)
      (h2s.trans rfl)
  rw [h3]
  have hcap : N ≤ (0 : Int) + 1 := by omega
  have h3nm' : st3.needs_more = some false := by rw [h3nm, if_pos hcap]
  have h3n' : st3.next = some none := by rw [h3n, if_pos hcap]; simp
  rw [runFrom_done o f 1 st3 h3n']
  exact ⟨st3, rfl, h3nm', h3n'⟩

/-- C3 witness: `max_iterations = -1`. -/
theorem claim3_no_validation_witness :
    ∃ st', run oAlways [] 3 (mkInitialState "q" (-1) [] false)
      = Except.ok (st', 1) ∧ st'.needs_more = some false ∧
      st'.next = some none :=
  claim3_no_validation "q" (-1) [] [] oAlways 0 (by decide) (by decide)
    ⟨"fact", rfl⟩

/-- C4: a producer that raises on its second invocation aborts the run with
a producer failure whose state carries exactly the first invocation's notes
delta and an iteration counter of 1 — nothing of the failed step is
committed. -/
theorem claim4_producer_failure_not_committed (q raw0 : String) (N : Int)
    (mem loaded : Memory) (o : Oracles) (f : Nat)
    (hq : q ≠ "") (hN : 1 < N)
    (h0 : o.research 0 = Except.ok raw0)
    (h1 : o.research 1 = Except.error ())
    (hmore : execNeedsFlag o.jsonLoads (o.execLLM 1) = true) :
    ∃ st', run o loaded (f + 3) (mkInitialState q N mem false)
      = Except.error (RunError.producerFailure st') ∧
      st'.research_notes = some [newlineJoin (parseNotes raw0)] ∧
      st'.iterations = some 1 := by
  rw [run_entry o loaded _ q N mem false hq,
    show f + 3 = f + 2 + 1 from rfl]
  obtain ⟨st2, h2, h2i, h2m, h2s, -, -, h2rn, -, h2n⟩ :=
    research_step o (f + 2) 0 (entryState q N mem false) 0 raw0 rfl rfl h0
  rw [h2, show f + 2 = f + 1 + 1 from rfl]
  obtain ⟨st3, h3, h3i, h3m, h3s, -, h3rn, h3nm, h3n⟩ :=
    exec_step o (f + 1) 1 st2 (0 + 1) N h2n h2i (h2m.trans rfl)
      (h2s.trans rfl)
  rw [h3]
  have hcap : ¬ (N ≤ (0 : Int) + 1) := by omega
  have hmore' : execNeedsFlag o.jsonLoads (o.execLLM (0 + 1)) = true := by
    simpa using hmore
  have h3n' : st3.next = some (some "Researcher") := by
    rw [h3n, if_neg hcap, hmore']
    simp
  have hfail : o.research (st3.iterations.getD 0) = Except.error () := by
    rw [h3i, Option.getD_some, zero_add]
    exact h1
  rw [research_fail o f 1 st3 h3n' hfail]
  refine ⟨st3, rfl, ?_, by rw [h3i, zero_add]⟩
  rw [h3rn, h2rn]
  simp [entryState]

/-- C4 witness: the producer fails on invocation two with `max_iterations =
3`. -/
theorem claim4_producer_failure_not_committed_witness :
    ∃ st', run oFail2 [] 3 (mkInitialState "hi" 3 [] false)
      = Except.error (RunError.producerFailure st') ∧
      st'.research_notes = some [newlineJoin (parseNotes "alpha")] ∧
      st'.iterations = some 1 :=
  claim4_producer_failure_not_committed "hi" "alpha" 3 [] [] oFail2 0
    (by decide) (by decide) rfl rfl rfl

/-- C7: if the producer/evaluator never signals `needs_more = true`, the
run exits after exactly one producer invocation with `needs_more` false in
the final record. -/
theorem claim7_single_invocation (q : String) (N : Int) (mem loaded : Memory)
    (o : Oracles) (f : Nat)
    (hq : q ≠ "")
    (hres0 : ∃ raw, o.research 0 = Except.ok raw)
    (hpflags : ∀ (i : Int) (raw : String),
      o.research i = Except.ok raw → parseNeedsFlag raw = false)
    (hflags : ∀ i : Int, execNeedsFlag o.jsonLoads (o.execLLM i) = false) :
    ∃ st', run o loaded (f + 3) (mkInitialState q N mem false)
      = Except.ok (st', 1) ∧ st'.needs_more = some false ∧
      st'.next = some none := by
  obtain ⟨raw, hraw⟩ := hres0
  rw [run_entry o loaded _ q N mem false hq,
    show f + 3 = f + 2 + 1 from rfl]
  obtain ⟨st2, h2, h2i, h2m, h2s, -, -, -, -, h2n⟩ :=
    research_step o (f + 2) 0 (entryState q N mem false) 0 raw rfl rfl hraw
  rw [h2, show f + 2 = f + 1 + 1 from rfl]
  obtain ⟨st3, h3, h3i, h3m, h3s, -, -, h3nm, h3n⟩ :=
    exec_step o (f + 1) 1 st2 (0 + 1) N h2n h2i (h2m.trans rfl)
      (h2s.trans rfl)
  rw [h3]
  have h3nm' : st3.needs_more = some false := by
    rw [h3nm, hflags]
    simp
  have h3n' : st3.next = some none := by
    rw [h3n, hflags]
    simp
  rw [runFrom_done o f 1 st3 h3n']
  exact ⟨st3, rfl, h3nm', h3n'⟩

/-- C7 witness: a producer that never asks for more with `max_iterations =
2` stops after one invocation. -/
theorem claim7_single_invocation_witness :
    ∃ st', run oNever [] 3 (mkInitialState "hi" 2 [] false)
      = Except.ok (st', 1) ∧ st'.needs_more = some false ∧
      st'.next = some none :=
  claim7_single_invocation "hi" 2 [] [] oNever 0 (by decide)
    ⟨"fact", rfl⟩
    (fun _ raw h => by cases h; decide)
    (fun _ => rfl)

end AgentGraph
